import Mathlib

/-!
Verification of the ponder-indexer core: a shallow embedding of the
transaction classifier, the per-block aggregation pass (`src/index.ts`,
handler `monadBlocks:block`), the TPS estimator and the WebSocket
publish/subscribe layer (`src/websocket.ts`), with theorems settling the
behavioural claims of the specification.

Modelling conventions:
- JavaScript strings are `String` when only compared for equality, and
  `List Char` for the transaction call-data, whose length/slice arithmetic
  the claims talk about (JS `.length`/`.slice` act on code units; all the
  relevant data is ASCII hex, where `List Char` agrees).
- `bigint`/nonnegative numeric fields are `Nat`; signed timestamp spans
  use `Int`; the float returned by `calculateTPS` is `ℚ` (the code only
  forms one quotient, so the claimed value is the exact quotient).
- JS `Map`s are insertion-ordered association lists; `Map.set` on a fresh
  key appends at the back, updates rewrite in place, matching iteration
  order of the source.
-/

namespace PonderIndexer

/-- Association-list lookup, the model of `Map.get`. -/
def alookup {α β : Type} [DecidableEq α] (k : α) : List (α × β) → Option β
  | [] => none
  | (a, b) :: rest => if a = k then some b else alookup k rest

/-! ## Classifier (src/index.ts, `classifyTransactionByMethodSig`) -/

/-- The static selector table of `classifyTransactionByMethodSig`:
ERC20 transfers, DEX swaps, mint/burn variants, stake/deposit/withdraw/claim
variants.  Keys are the lower-case 4-byte selectors as hex strings. -/
def signatures : List (List Char × String) :=
  [ ("0xa9059cbb".data, "transfer"), ("0x23b872dd".data, "transfer"),
    ("0x7ff36ab5".data, "swap"), ("0x18cbafe5".data, "swap"),
    ("0x38ed1739".data, "swap"), ("0x8803dbee".data, "swap"),
    ("0x5c11d795".data, "swap"), ("0x791ac947".data, "swap"),
    ("0x022c0d9f".data, "swap"),
    ("0x40c10f19".data, "mint"), ("0xa0712d68".data, "mint"),
    ("0x4f02c420".data, "mint"),
    ("0x42966c68".data, "burn"), ("0x9dc29fac".data, "burn"),
    ("0xa399b6a2".data, "burn"),
    ("0xa694fc3a".data, "stake"), ("0x2e1a7d4d".data, "stake"),
    ("0xb6b55f25".data, "stake"), ("0xe2bbb158".data, "stake"),
    ("0x379607f5".data, "stake"), ("0x4e71d92d".data, "stake") ]

/-- `classifyTransactionByMethodSig(input)`: lower-case the first 10
characters (`input.slice(0, 10).toLowerCase()`) and look the selector up in
the static table; an unmatched selector yields `"other"`. -/
def classifyTransactionByMethodSig (input : List Char) : String :=
  let methodSig := (input.take 10).map Char.toLower
  (alookup methodSig signatures).getD "other"

/-- The classification branch of the block handler (src/index.ts lines
167-177): value `> 0` with call data `"0x"` or of length at most 10
(at most a full selector) is a native `"transfer"`; anything else is
classified by method signature. -/
def txCategory (value : Nat) (input : List Char) : String :=
  if 0 < value ∧ (input = "0x".data ∨ input.length ≤ 10) then "transfer"
  else classifyTransactionByMethodSig input

/-- The classifier exactly as the specification words it, for comparison
with `txCategory`: rule (1) fires only when the call data is empty or
STRICTLY shorter than a full 4-byte selector. -/
def txCategorySpecWorded (value : Nat) (input : List Char) : String :=
  if 0 < value ∧ (input = [] ∨ input = "0x".data ∨ input.length < 10) then "transfer"
  else classifyTransactionByMethodSig input

/-! ## Block data model (src/index.ts, `monadBlocks:block` handler) -/

/-- A transaction as delivered by the block source (viem full transaction):
`to` is absent for contract creations; `input` is the hex call data
(`0x`-prefixed, hence nonempty, on the declared wire type — the handler's
`tx.input || "0x"` additionally maps a missing/empty input to `"0x"`). -/
structure Tx where
  hash : String
  fromAddress : String
  toAddress : Option String
  value : Nat
  gas : Nat
  gasPrice : Nat
  input : List Char
  nonce : Nat
deriving DecidableEq, Repr

/-- The handler's local `input = tx.input || "0x"`. -/
def effInput (tx : Tx) : List Char :=
  if tx.input = [] then "0x".data else tx.input

/-- The zero-address sentinel used when a transaction has no receiver. -/
def zeroAddress : String := "0x0000000000000000000000000000000000000000"

/-- Category of one transaction as the handler computes it. -/
def txTypeOf (tx : Tx) : String :=
  txCategory tx.value (effInput tx)

/-- The handler's `contractAddress` resolution: both branches of the
classification `if` end up taking `tx.to` when present and `null`
otherwise (the transfer branch assigns it only under `if (tx.to)`, the
other branch assigns `tx.to` directly). -/
def resolvedContract (tx : Tx) : Option String :=
  tx.toAddress

/-- The block handler's `txTypeCounts` object. -/
structure TxTypeCounts where
  transfer : Nat
  swap : Nat
  mint : Nat
  burn : Nat
  stake : Nat
  other : Nat
deriving DecidableEq, Repr

def TxTypeCounts.zero : TxTypeCounts := ⟨0, 0, 0, 0, 0, 0⟩

/-- `txTypeCounts[txType]++`: bump the counter named by the category. -/
def bumpCount (c : TxTypeCounts) (t : String) : TxTypeCounts :=
  if t = "transfer" then { c with transfer := c.transfer + 1 }
  else if t = "swap" then { c with swap := c.swap + 1 }
  else if t = "mint" then { c with mint := c.mint + 1 }
  else if t = "burn" then { c with burn := c.burn + 1 }
  else if t = "stake" then { c with stake := c.stake + 1 }
  else if t = "other" then { c with other := c.other + 1 }
  else c

/-- The per-block category counting pass. -/
def countTypes (txs : List Tx) : TxTypeCounts :=
  txs.foldl (fun c tx => bumpCount c (txTypeOf tx)) TxTypeCounts.zero

/-- A block header as consumed by the handler. -/
structure BlockHeader where
  number : Nat
  hash : String
  timestamp : Nat
  gasUsed : Nat
  gasLimit : Nat
deriving DecidableEq, Repr

/-- The row inserted into `blocks` (src/index.ts lines 253-266). -/
structure BlockRecord where
  number : Nat
  hash : String
  timestamp : Nat
  transactionCount : Nat
  gasUsed : Nat
  gasLimit : Nat
  transferCount : Nat
  swapCount : Nat
  mintCount : Nat
  burnCount : Nat
  stakeCount : Nat
  otherCount : Nat
deriving DecidableEq, Repr

/-- Build the `blocks` row for one processed block:
`transactionCount = fullBlock.transactions.length`, category counts from
the classification pass. -/
def mkBlockRecord (hdr : BlockHeader) (txs : List Tx) : BlockRecord :=
  let c := countTypes txs
  { number := hdr.number, hash := hdr.hash, timestamp := hdr.timestamp,
    transactionCount := txs.length, gasUsed := hdr.gasUsed,
    gasLimit := hdr.gasLimit,
    transferCount := c.transfer, swapCount := c.swap, mintCount := c.mint,
    burnCount := c.burn, stakeCount := c.stake, otherCount := c.other }

/-! ## Contract usage aggregation (src/index.ts lines 180-206, 269-280) -/

/-- One entry of the `contractStats` map. -/
structure CStats where
  transactionCount : Nat
  gasUsed : Nat
  transactionType : String
deriving DecidableEq, Repr

/-- Update `contractStats` for one transaction targeting `addr`: an
existing entry gets `transactionCount++` and `gasUsed += gas` (keeping its
`transactionType`); a missing entry is created with count 1 and the
current transaction's category (first-observed-wins). -/
def insertContract (addr : String) (gas : Nat) (cat : String) :
    List (String × CStats) → List (String × CStats)
  | [] => [(addr, ⟨1, gas, cat⟩)]
  | (a, s) :: rest =>
    if a = addr then
      (a, ⟨s.transactionCount + 1, s.gasUsed + gas, s.transactionType⟩) :: rest
    else (a, s) :: insertContract addr gas cat rest

/-- One step of the per-transaction loop restricted to `contractStats`:
only transactions with a resolved contract address contribute. -/
def contractStep (m : List (String × CStats)) (tx : Tx) : List (String × CStats) :=
  match resolvedContract tx with
  | some addr => insertContract addr tx.gas (txTypeOf tx) m
  | none => m

/-- The `contractStats` map after the whole per-transaction loop. -/
def buildContractStats (txs : List Tx) : List (String × CStats) :=
  txs.foldl contractStep []

/-- The row inserted into `contractUsage` (src/index.ts lines 269-280). -/
structure ContractUsageRecord where
  id : String
  blockNumber : Nat
  blockTimestamp : Nat
  contractAddress : String
  transactionCount : Nat
  gasUsed : Nat
  avgGasPerTx : Nat
  transactionType : String
deriving DecidableEq, Repr

/-- Finalize one `contractStats` entry into its `contractUsage` row:
`avgGasPerTx = stats.gasUsed / stats.transactionCount` (truncating
`bigint` division). -/
def mkContractUsageRecord (hdr : BlockHeader) (addr : String) (s : CStats) :
    ContractUsageRecord :=
  { id := toString hdr.number ++ "-" ++ addr,
    blockNumber := hdr.number, blockTimestamp := hdr.timestamp,
    contractAddress := addr,
    transactionCount := s.transactionCount, gasUsed := s.gasUsed,
    avgGasPerTx := s.gasUsed / s.transactionCount,
    transactionType := s.transactionType }

/-- All `contractUsage` rows emitted for one block. -/
def contractUsageRecords (hdr : BlockHeader) (txs : List Tx) :
    List ContractUsageRecord :=
  (buildContractStats txs).map (fun p => mkContractUsageRecord hdr p.1 p.2)

/-- The transactions of a block that contribute to contract `addr`'s
usage row: those whose resolved contract address is `addr`, in block
order. -/
def txsTo (addr : String) : List Tx → List Tx
  | [] => []
  | tx :: rest =>
    if resolvedContract tx = some addr then tx :: txsTo addr rest
    else txsTo addr rest

/-- Total gas of a transaction list (the `gasUsed = BigInt(tx.gas)` field
summed by the accumulator). -/
def sumGas : List Tx → Nat
  | [] => 0
  | tx :: rest => tx.gas + sumGas rest

/-! ## MON transfers and wallet activity (src/index.ts lines 120-164) -/

/-- One entry of the `monTransfersList` array. -/
structure MonTransferRecord where
  id : String
  transactionHash : String
  fromAddress : String
  toAddress : String
  amount : Nat
  gasUsed : Nat
deriving DecidableEq, Repr

/-- One entry of the `monWalletStats` map. -/
structure MonWalletStats where
  totalSent : Nat
  totalReceived : Nat
  transferCount : Nat
  sentCount : Nat
  receivedCount : Nat
deriving DecidableEq, Repr

def MonWalletStats.zero : MonWalletStats := ⟨0, 0, 0, 0, 0⟩

/-- Pointwise sum of two wallet accumulators. -/
def MonWalletStats.add (a b : MonWalletStats) : MonWalletStats :=
  ⟨a.totalSent + b.totalSent, a.totalReceived + b.totalReceived,
   a.transferCount + b.transferCount, a.sentCount + b.sentCount,
   a.receivedCount + b.receivedCount⟩

/-- The delta one send applies to the sender's accumulator: sent total,
transfer count and sent count, nothing else. -/
def senderDelta (amount : Nat) : MonWalletStats := ⟨amount, 0, 1, 1, 0⟩

/-- The delta one receive applies to the receiver's accumulator: received
total, transfer count and received count, nothing else. -/
def receiverDelta (amount : Nat) : MonWalletStats := ⟨0, amount, 1, 0, 1⟩

/-- Sender-side update of `monWalletStats` (lines 131-145): an existing
entry gets `totalSent += amount; transferCount++; sentCount++`; a missing
one is created as `{amount, 0, 1, 1, 0}` at the back of the map. -/
def updateSender (addr : String) (amount : Nat) :
    List (String × MonWalletStats) → List (String × MonWalletStats)
  | [] => [(addr, ⟨amount, 0, 1, 1, 0⟩)]
  | (a, s) :: rest =>
    if a = addr then
      (a, { s with totalSent := s.totalSent + amount,
                   transferCount := s.transferCount + 1,
                   sentCount := s.sentCount + 1 }) :: rest
    else (a, s) :: updateSender addr amount rest

/-- Receiver-side update of `monWalletStats` (lines 148-163): an existing
entry gets `totalReceived += amount; transferCount++; receivedCount++`; a
missing one is created as `{0, amount, 1, 0, 1}` at the back of the map. -/
def updateReceiver (addr : String) (amount : Nat) :
    List (String × MonWalletStats) → List (String × MonWalletStats)
  | [] => [(addr, ⟨0, amount, 1, 0, 1⟩)]
  | (a, s) :: rest =>
    if a = addr then
      (a, { s with totalReceived := s.totalReceived + amount,
                   transferCount := s.transferCount + 1,
                   receivedCount := s.receivedCount + 1 }) :: rest
    else (a, s) :: updateReceiver addr amount rest

/-- The MON-tracking state threaded through the loop: the
`monTransfersList` array and the `monWalletStats` map. -/
structure MonState where
  transfers : List MonTransferRecord
  walletStats : List (String × MonWalletStats)
deriving DecidableEq, Repr

/-- The transfer record pushed onto `monTransfersList` for the
transaction at index `i` of block `bn`: id `` `${block.number}-${i}` ``,
receiver defaulted to the zero address for contract creations. -/
def mkMonTransferRecord (bn i : Nat) (tx : Tx) : MonTransferRecord :=
  ⟨toString bn ++ "-" ++ toString i, tx.hash, tx.fromAddress,
   tx.toAddress.getD zeroAddress, tx.value, tx.gas⟩

/-- The MON-tracking part of one loop iteration (lines 119-164), for the
transaction at index `i` of block `bn`: nothing happens unless
`monAmount > 0`; otherwise exactly one transfer record is pushed, the
sender accumulator is updated, and the receiver accumulator is updated
when `tx.to` exists. -/
def monStep (bn : Nat) (i : Nat) (st : MonState) (tx : Tx) : MonState :=
  if 0 < tx.value then
    let transfers := st.transfers ++ [mkMonTransferRecord bn i tx]
    let afterSender := updateSender tx.fromAddress tx.value st.walletStats
    let afterReceiver :=
      match tx.toAddress with
      | some rcv => updateReceiver rcv tx.value afterSender
      | none => afterSender
    ⟨transfers, afterReceiver⟩
  else st

/-- The MON-tracking state after the whole per-transaction loop of one
block (transactions paired with their index `i`). -/
def monFold (bn : Nat) (txs : List Tx) : MonState :=
  (txs.enum.foldl (fun st p => monStep bn p.1 st p.2) ⟨[], []⟩)

/-! ## Stored transaction rows (src/index.ts lines 229-246) -/

/-- The `inputData` column expression:
`input.length > 1000 ? input.slice(0, 1000) + "..." : input`. -/
def truncateInputData (input : List Char) : List Char :=
  if input.length > 1000 then input.take 1000 ++ "...".data else input

/-- The row inserted into `transactions`. -/
structure TransactionRecord where
  hash : String
  blockNumber : Nat
  blockTimestamp : Nat
  transactionIndex : Nat
  fromAddress : String
  toAddress : String
  value : Nat
  gasUsed : Nat
  gasPrice : Nat
  gasLimit : Nat
  transactionType : String
  methodSignature : List Char
  inputData : List Char
  success : Bool
  nonce : Nat
  contractAddress : String
deriving DecidableEq, Repr

/-- Build the `transactions` row for the transaction at index `i`. -/
def mkTransactionRecord (hdr : BlockHeader) (i : Nat) (tx : Tx) :
    TransactionRecord :=
  let input := effInput tx
  { hash := tx.hash, blockNumber := hdr.number,
    blockTimestamp := hdr.timestamp, transactionIndex := i,
    fromAddress := tx.fromAddress,
    toAddress := tx.toAddress.getD zeroAddress,
    value := tx.value, gasUsed := tx.gas, gasPrice := tx.gasPrice,
    gasLimit := tx.gas, transactionType := txTypeOf tx,
    methodSignature := input.take 10,
    inputData := truncateInputData input,
    success := true, nonce := tx.nonce,
    contractAddress := (resolvedContract tx).getD zeroAddress }

/-! ## TPS estimator (src/websocket.ts lines 8-43) -/

/-- One entry of the `recentBlocks` window. -/
structure BlockInfo where
  number : Nat
  timestamp : Nat
  transactionCount : Nat
deriving DecidableEq, Repr

/-- The `while (recentBlocks.length > TPS_WINDOW_BLOCKS) recentBlocks.shift()`
loop: evict from the front while the size exceeds `w`. -/
def evictFront (w : Nat) : List BlockInfo → List BlockInfo
  | [] => []
  | b :: rest => if (b :: rest).length > w then evictFront w rest else b :: rest

/-- `updateBlockTracking`: push the new entry at the back, then evict from
the front while the size exceeds the window `w` (`TPS_WINDOW_BLOCKS`). -/
def updateBlockTracking (w : Nat) (st : List BlockInfo) (b : BlockInfo) :
    List BlockInfo :=
  evictFront w (st ++ [b])

/-- Total `transactionCount` over the window
(`recentBlocks.reduce((sum, b) => sum + b.transactionCount, 0)`). -/
def totalTransactions (l : List BlockInfo) : Nat :=
  l.foldl (fun sum b => sum + b.transactionCount) 0

/-- `calculateTPS()`: 0 with fewer than 2 entries; 0 when the timestamp
span (newest minus oldest) is 0; otherwise the window's total transaction
count divided by that span. -/
def calculateTPS (recentBlocks : List BlockInfo) : ℚ :=
  if recentBlocks.length < 2 then 0
  else
    match recentBlocks.head?, recentBlocks.getLast? with
    | some oldestBlock, some newestBlock =>
      let timeSpan : ℤ :=
        (newestBlock.timestamp : ℤ) - (oldestBlock.timestamp : ℤ)
      if timeSpan = 0 then 0
      else (totalTransactions recentBlocks : ℚ) / (timeSpan : ℚ)
    | _, _ => 0

/-! ## Event emitter (src/websocket.ts lines 139-171)

`MonadEventEmitter.emit` runs
`this.listeners.get(event.type)?.forEach(callback => callback(event))`:
`Set.forEach` has no exception handling, so a callback that throws aborts
the iteration and the exception propagates to the caller of `emit`.  The
model makes delivery observable: a listener carries an id and a callback
that either succeeds or throws, and `emit` reports which listeners were
invoked successfully and the first exception, if any. -/

/-- An event as emitted on the bus: a type tag and an emission
timestamp (the payload is irrelevant to the delivery claims). -/
structure Ev where
  type : String
  timestamp : Nat
deriving DecidableEq, Repr

/-- A registered listener: an identity plus a callback that either
returns or throws. -/
structure Listener where
  id : Nat
  callback : Ev → Except String Unit

/-- `Set.forEach(callback => callback(event))` under exceptions: deliver
in registration order, stopping at (and re-raising) the first throw.
Returns the ids of the listeners that received the event and the
propagated exception, if any. -/
def deliverAll (e : Ev) : List Listener → List Nat × Option String
  | [] => ([], none)
  | l :: rest =>
    match l.callback e with
    | Except.ok _ =>
      let r := deliverAll e rest
      (l.id :: r.1, r.2)
    | Except.error msg => ([], some msg)

/-- The emitter's `listeners` map, event type ↦ registered callbacks. -/
abbrev EmitterState : Type := List (String × List Listener)

/-- `emit(event)`: deliver to the listeners currently registered for
`event.type` (none if the type has no entry). -/
def emit (em : EmitterState) (e : Ev) : List Nat × Option String :=
  deliverAll e ((alookup e.type em).getD [])

/-! ## Subscription registry (src/websocket.ts lines 184-300)

The registry `clientSubscriptions : Map<WebSocket, Set<EventType>>` is
modelled with clients named by `Nat`; a subscription set is an
insertion-ordered duplicate-free list, matching JS `Set`. -/

/-- The registry state: connected clients with their subscribed tags. -/
abbrev Registry : Type := List (Nat × List String)

/-- `Map.set`: overwrite the entry if present, else append at the back. -/
def setEntry (c : Nat) (subs : List String) : Registry → Registry
  | [] => [(c, subs)]
  | (a, s) :: rest =>
    if a = c then (a, subs) :: rest else (a, s) :: setEntry c subs rest

/-- Connection handler: `clientSubscriptions.set(ws, new Set())` — a fresh
client starts with an empty subscription set. -/
def connect (st : Registry) (c : Nat) : Registry :=
  setEntry c [] st

/-- `close` handler: `clientSubscriptions.delete(ws)`. -/
def disconnect (st : Registry) (c : Nat) : Registry :=
  st.filter (fun p => p.1 ≠ c)

/-- `Set.add` over a list of tags: add each tag not already present, in
order (`eventTypes.forEach(t => subscriptions.add(t))`). -/
def addTags (subs : List String) (tags : List String) : List String :=
  tags.foldl (fun s t => if t ∈ s then s else s ++ [t]) subs

/-- A parsed client message (`JSON.parse` succeeded): its `type` field and
its `events` list (already normalised to an array as by
`Array.isArray(data.events) ? data.events : [data.events]`). -/
structure SubMsg where
  type : String
  events : List String
deriving DecidableEq, Repr

/-- The `message` handler: `none` stands for an unparseable message, whose
`JSON.parse` throws — the `catch` logs and leaves everything unchanged, no
acknowledgment.  A parsed message of type `"subscribe"` unions the
requested tags into the client's set and acknowledges with the full
current set (`Array.from(subscriptions)`); any other parsed type does
nothing.  Returns the new registry and the acknowledgment payload sent,
if any. -/
def handleMessage (st : Registry) (c : Nat) (msg : Option SubMsg) :
    Registry × Option (List String) :=
  match msg with
  | none => (st, none)
  | some m =>
    if m.type = "subscribe" then
      let subs := (alookup c st).getD []
      let subs' := addTags subs m.events
      (setEntry c subs' st, some subs')
    else (st, none)

/-- `broadcastEvent`: the clients an event of type `etype` is sent to —
those whose subscription set contains the tag
(`subscriptions?.has(event.type)`).  Registry membership models being in
`wss.clients` with an `OPEN` transport. -/
def broadcastRecipients (st : Registry) (etype : String) : List Nat :=
  (st.filter (fun p => etype ∈ p.2)).map (fun p => p.1)

/-! ## Helper lemmas -/

theorem alookup_mem {α β : Type} [DecidableEq α] {k : α} {v : β}
    {l : List (α × β)} (h : alookup k l = some v) : v ∈ l.map Prod.snd := by
  induction l with
  | nil => simp [alookup] at h
  | cons p rest ih =>
    obtain ⟨a, b⟩ := p
    by_cases hak : a = k
    · simp [alookup, hak] at h
      simp [h]
    · simp [alookup, hak] at h
      simp [ih h]

theorem mem_of_alookup {α β : Type} [DecidableEq α] {k : α} {v : β}
    {l : List (α × β)} (h : alookup k l = some v) : (k, v) ∈ l := by
  induction l with
  | nil => simp [alookup] at h
  | cons p rest ih =>
    obtain ⟨a, b⟩ := p
    by_cases hak : a = k
    · simp [alookup, hak] at h
      simp [hak, h]
    · simp [alookup, hak] at h
      simp [ih h]

theorem alookup_of_mem_nodup {α β : Type} [DecidableEq α] {k : α} {v : β}
    {l : List (α × β)} (hnd : (l.map Prod.fst).Nodup) (hmem : (k, v) ∈ l) :
    alookup k l = some v := by
  induction l with
  | nil => simp at hmem
  | cons p rest ih =>
    obtain ⟨a, b⟩ := p
    simp only [List.map_cons, List.nodup_cons] at hnd
    rcases List.mem_cons.mp hmem with heq | htail
    · obtain ⟨h1, h2⟩ := Prod.mk.injEq .. ▸ heq.symm
      simp [alookup, h1.symm, h2]
    · have hak : a ≠ k := by
        intro h
        exact hnd.1 (h ▸ (List.mem_map.mpr ⟨(k, v), htail, rfl⟩))
      simp [alookup, hak, ih hnd.2 htail]

theorem alookup_none_not_mem {α β : Type} [DecidableEq α] {k : α}
    {l : List (α × β)} (h : alookup k l = none) : k ∉ l.map Prod.fst := by
  induction l with
  | nil => simp
  | cons p rest ih =>
    obtain ⟨a, b⟩ := p
    by_cases hak : a = k
    · simp [alookup, hak] at h
    · simp [alookup, hak] at h
      simp only [List.map_cons, List.mem_cons]
      rintro (rfl | hmem)
      · exact hak rfl
      · exact ih h hmem

/-! ## C2: classifier rule order -/

/-- C2 (counterexample): the claim's rule (1) requires call data "empty or
shorter than a full 4-byte selector"; the code's condition is
`input.length <= 10`, which also captures call data of EXACTLY one full
selector.  For value 1 and input `"0x7ff36ab5"` (a complete swap selector,
10 characters), the code classifies `"transfer"` while the claim's rule
order yields `"swap"`. -/
theorem txCategory_boundary_counterexample :
    txCategory 1 "0x7ff36ab5".data = "transfer"
    ∧ txCategorySpecWorded 1 "0x7ff36ab5".data = "swap"
    ∧ txCategory 1 "0x7ff36ab5".data ≠ txCategorySpecWorded 1 "0x7ff36ab5".data := by
  refine ⟨by decide, by decide, by decide⟩

/-- C2 (amended): classification rule order as the code implements it: if
`nativeValue > 0` and the call data is `"0x"` or AT MOST a full 4-byte
selector long (10 characters), the category is `"transfer"`; otherwise the
lower-cased 4-byte selector is looked up exact-match in the static table,
an unmatched selector yielding `"other"`; the classifier is a pure total
function, so identical inputs yield identical categories. -/
theorem txCategory_rule_order (value : Nat) (input : List Char) :
    (0 < value → (input = "0x".data ∨ input.length ≤ 10) →
      txCategory value input = "transfer")
    ∧ (¬(0 < value ∧ (input = "0x".data ∨ input.length ≤ 10)) →
      txCategory value input
        = (alookup ((input.take 10).map Char.toLower) signatures).getD "other")
    ∧ (alookup ((input.take 10).map Char.toLower) signatures = none →
      classifyTransactionByMethodSig input = "other")
    ∧ (∀ value' input', value = value' → input = input' →
      txCategory value input = txCategory value' input') := by
  refine ⟨?_, ?_, ?_, ?_⟩
  · intro hv hlen
    simp [txCategory, hv, hlen]
  · intro h
    show txCategory value input = _
    unfold txCategory
    rw [if_neg h]
    rfl
  · intro h
    show (alookup ((input.take 10).map Char.toLower) signatures).getD "other" = "other"
    rw [h]
    rfl
  · intro value' input' hv hi
    rw [hv, hi]

/-- C2 witness: the amended rule order evaluated at a concrete input. -/
theorem txCategory_rule_order_witness :
    0 < 7 ∧ txCategory 7 "0x".data = "transfer" :=
  ⟨by decide, (txCategory_rule_order 7 "0x".data).1 (by decide) (by decide)⟩

/-! ## C3: category counts sum to the transaction count -/

theorem txTypeOf_mem_categories (tx : Tx) :
    txTypeOf tx ∈ (["transfer", "swap", "mint", "burn", "stake", "other"] : List String) := by
  unfold txTypeOf txCategory
  split
  · simp
  · show (alookup (((effInput tx).take 10).map Char.toLower) signatures).getD "other" ∈ _
    cases h : alookup (((effInput tx).take 10).map Char.toLower) signatures with
    | none => simp
    | some v =>
      have hv : v ∈ signatures.map Prod.snd := alookup_mem h
      have hall : ∀ x ∈ signatures.map Prod.snd,
          x ∈ (["transfer", "swap", "mint", "burn", "stake", "other"] : List String) := by
        decide
      simpa using hall v hv

/-- The six counters of a `TxTypeCounts` summed. -/
def TxTypeCounts.total (c : TxTypeCounts) : Nat :=
  c.transfer + c.swap + c.mint + c.burn + c.stake + c.other

theorem total_bumpCount (c : TxTypeCounts) (t : String)
    (h : t ∈ (["transfer", "swap", "mint", "burn", "stake", "other"] : List String)) :
    (bumpCount c t).total = c.total + 1 := by
  simp only [List.mem_cons, List.not_mem_nil, or_false] at h
  rcases h with h | h | h | h | h | h <;> subst h <;>
    simp [bumpCount, TxTypeCounts.total] <;> omega

theorem countTypes_total (txs : List Tx) :
    (countTypes txs).total = txs.length := by
  suffices h : ∀ c : TxTypeCounts,
      (txs.foldl (fun c tx => bumpCount c (txTypeOf tx)) c).total
        = c.total + txs.length by
    simpa [countTypes, TxTypeCounts.total, TxTypeCounts.zero] using h TxTypeCounts.zero
  induction txs with
  | nil => intro c; simp
  | cons tx rest ih =>
    intro c
    simp only [List.foldl_cons, ih, total_bumpCount c _ (txTypeOf_mem_categories tx),
      List.length_cons]
    omega

/-- C3: for every processed block, the six per-category counts stored in
its `blocks` row sum to the block's `transactionCount`. -/
theorem blockRecord_counts_sum (hdr : BlockHeader) (txs : List Tx) :
    (mkBlockRecord hdr txs).transferCount + (mkBlockRecord hdr txs).swapCount
      + (mkBlockRecord hdr txs).mintCount + (mkBlockRecord hdr txs).burnCount
      + (mkBlockRecord hdr txs).stakeCount + (mkBlockRecord hdr txs).otherCount
      = (mkBlockRecord hdr txs).transactionCount := by
  have h := countTypes_total txs
  simp only [TxTypeCounts.total] at h
  simp [mkBlockRecord, h]

/-! ## C10: stored call-data truncation -/

/-- C10: the persisted `inputData` column is the transaction's input
unchanged when it is at most 1000 characters, and its first 1000
characters followed by `"..."` otherwise, so it never exceeds 1003
characters.  (The handler's `tx.input || "0x"` only replaces a
missing/empty input, hence the nonemptiness hypothesis — the wire type of
`tx.input` is a `0x`-prefixed hex string, which is never empty.) -/
theorem transactionRecord_inputData (hdr : BlockHeader) (i : Nat) (tx : Tx)
    (htx : tx.input ≠ []) :
    (tx.input.length ≤ 1000 →
      (mkTransactionRecord hdr i tx).inputData = tx.input)
    ∧ (1000 < tx.input.length →
      (mkTransactionRecord hdr i tx).inputData = tx.input.take 1000 ++ "...".data)
    ∧ (mkTransactionRecord hdr i tx).inputData.length ≤ 1003 := by
  have heff : effInput tx = tx.input := by simp [effInput, htx]
  refine ⟨?_, ?_, ?_⟩
  · intro hle
    simp [mkTransactionRecord, truncateInputData, heff, Nat.not_lt.mpr hle]
  · intro hgt
    simp [mkTransactionRecord, truncateInputData, heff, hgt]
  · simp only [mkTransactionRecord, truncateInputData, heff]
    split
    · next hgt =>
      have h3 : ("...".data).length = 3 := by decide
      have h10 : (tx.input.take 1000).length = 1000 := by
        rw [List.length_take]
        omega
      rw [List.length_append, h10, h3]
    · next hle =>
      simp only [not_lt] at hle
      omega

/-- C10 witness: truncation evaluated at a concrete short input. -/
theorem transactionRecord_inputData_witness :
    ("0xdeadbeef".data ≠ ([] : List Char))
    ∧ (mkTransactionRecord ⟨100, "0xblockhash", 1700000000, 5000, 10000⟩ 0
        ⟨"0xtxhash", "0xaaaa", some "0xbbbb", 0, 21000, 7, "0xdeadbeef".data, 3⟩).inputData
      = "0xdeadbeef".data :=
  ⟨by decide,
   (transactionRecord_inputData ⟨100, "0xblockhash", 1700000000, 5000, 10000⟩ 0
      ⟨"0xtxhash", "0xaaaa", some "0xbbbb", 0, 21000, 7, "0xdeadbeef".data, 3⟩
      (by decide)).1 (by decide)⟩

/-! ## C1: emit and listener failures -/

/-- C1 (counterexample): `emit` runs the registered callbacks with a bare
`Set.forEach`, so a callback that throws aborts delivery and the exception
propagates.  With two listeners registered for `"block"`, the first of
which throws, the second listener (id 2) receives nothing and the failure
is re-raised to the caller of `emit` — contradicting the claim that the
event still reaches every other listener and that the failure is not
re-raised. -/
theorem emit_failure_counterexample :
    (emit [("block",
        [⟨1, fun _ => Except.error "closed transport"⟩,
         ⟨2, fun _ => Except.ok ()⟩])] ⟨"block", 0⟩).1 = []
    ∧ (emit [("block",
        [⟨1, fun _ => Except.error "closed transport"⟩,
         ⟨2, fun _ => Except.ok ()⟩])] ⟨"block", 0⟩).2
      = some "closed transport" := by
  exact ⟨rfl, rfl⟩

/-- C1 (amended): when a listener's callback raises during `emit`, the
listeners registered before it (which all succeeded) have received the
event, the listeners registered after it do not receive it, and the
exception is re-raised to the caller of `emit`. -/
theorem emit_failure_propagates (em : EmitterState) (e : Ev)
    (pre post : List Listener) (f : Listener) (msg : String)
    (hreg : alookup e.type em = some (pre ++ f :: post))
    (hpre : ∀ l ∈ pre, l.callback e = Except.ok ())
    (hf : f.callback e = Except.error msg) :
    emit em e = (pre.map Listener.id, some msg) := by
  unfold emit
  rw [hreg]
  show deliverAll e (pre ++ f :: post) = _
  clear hreg
  induction pre with
  | nil =>
    simp only [List.nil_append, List.map_nil]
    unfold deliverAll
    rw [hf]
  | cons l rest ih =>
    have hl : l.callback e = Except.ok () := hpre l (List.mem_cons_self l rest)
    have hrest : ∀ l' ∈ rest, l'.callback e = Except.ok () :=
      fun l' hl' => hpre l' (List.mem_cons_of_mem l hl')
    simp only [List.cons_append, List.map_cons]
    unfold deliverAll
    rw [hl, ih hrest]

/-- C1 witness: the amended delivery semantics at a concrete emitter. -/
theorem emit_failure_propagates_witness :
    emit [("block",
        [⟨1, fun _ => Except.ok ()⟩,
         ⟨2, fun _ => Except.error "boom"⟩,
         ⟨3, fun _ => Except.ok ()⟩])] ⟨"block", 7⟩ = ([1], some "boom") :=
  emit_failure_propagates _ _ [⟨1, fun _ => Except.ok ()⟩]
    [⟨3, fun _ => Except.ok ()⟩] ⟨2, fun _ => Except.error "boom"⟩ "boom"
    rfl (by intro l hl; rw [List.mem_singleton] at hl; subst hl; rfl) rfl

/-! ## C6: TPS estimator -/

theorem evictFront_length_le (w : Nat) (l : List BlockInfo) :
    (evictFront w l).length ≤ w := by
  induction l with
  | nil => simp [evictFront]
  | cons b rest ih =>
    unfold evictFront
    split
    · exact ih
    · next h => omega

theorem evictFront_of_length_le (w : Nat) (l : List BlockInfo)
    (h : l.length ≤ w) : evictFront w l = l := by
  cases l with
  | nil => rfl
  | cons b rest =>
    unfold evictFront
    rw [if_neg (by omega)]

theorem foldl_updateBlockTracking_of_le (w : Nat) (l : List BlockInfo) :
    ∀ st : List BlockInfo, st.length + l.length ≤ w →
      l.foldl (updateBlockTracking w) st = st ++ l := by
  induction l with
  | nil => intro st _; simp
  | cons b rest ih =>
    intro st hlen
    have hlen' : st.length + 1 + rest.length ≤ w := by
      simp only [List.length_cons] at hlen
      omega
    simp only [List.foldl_cons]
    have h1 : updateBlockTracking w st b = st ++ [b] := by
      unfold updateBlockTracking
      apply evictFront_of_length_le
      simp only [List.length_append, List.length_singleton]
      omega
    have h2 : (st ++ [b]).length + rest.length ≤ w := by
      simp only [List.length_append, List.length_singleton]
      omega
    rw [h1, ih (st ++ [b]) h2, List.append_assoc]
    rfl

/-- C6: the TPS window never holds more than `w` entries (push at the
back, FIFO eviction from the front while the size exceeds `w`); `tps()`
returns 0 with fewer than 2 entries or a zero timestamp span, and
otherwise the window's total transaction count divided by the span; for
10 consecutive blocks at timestamps 100..109 with 5 transactions each and
window `w ≥ 10`, the estimate is exactly `50/9`. -/
theorem tps_estimator_spec :
    (∀ (w : Nat) (st : List BlockInfo) (b : BlockInfo),
        (updateBlockTracking w st b).length ≤ w)
    ∧ (∀ l : List BlockInfo, l.length < 2 → calculateTPS l = 0)
    ∧ (∀ (l : List BlockInfo) (o n : BlockInfo), l.head? = some o →
        l.getLast? = some n → (n.timestamp : ℤ) - (o.timestamp : ℤ) = 0 →
        calculateTPS l = 0)
    ∧ (∀ (l : List BlockInfo) (o n : BlockInfo), 2 ≤ l.length →
        l.head? = some o → l.getLast? = some n →
        (n.timestamp : ℤ) - (o.timestamp : ℤ) ≠ 0 →
        calculateTPS l
          = (totalTransactions l : ℚ)
            / (((n.timestamp : ℤ) - (o.timestamp : ℤ) : ℤ) : ℚ))
    ∧ (∀ w : Nat, 10 ≤ w →
        calculateTPS
          (((List.range 10).map
              (fun k => (⟨k, 100 + k, 5⟩ : BlockInfo))).foldl
            (updateBlockTracking w) []) = 50 / 9) := by
  refine ⟨?_, ?_, ?_, ?_, ?_⟩
  · intro w st b
    exact evictFront_length_le w (st ++ [b])
  · intro l h
    unfold calculateTPS
    rw [if_pos h]
  · intro l o n ho hn hspan
    unfold calculateTPS
    split
    · rfl
    · rw [ho, hn]
      simp only [hspan]
      norm_num
  · intro l o n hlen ho hn hspan
    unfold calculateTPS
    rw [if_neg (by omega), ho, hn]
    simp only [if_neg hspan]
  · intro w hw
    rw [foldl_updateBlockTracking_of_le w _ [] (by simp; omega)]
    norm_num [List.range, List.range.loop, calculateTPS, totalTransactions]

/-- C6 witness: the estimator evaluated at the concrete 10-block window
with `w = 10`. -/
theorem tps_estimator_spec_witness :
    (10 : Nat) ≤ 10
    ∧ calculateTPS
        (((List.range 10).map
            (fun k => (⟨k, 100 + k, 5⟩ : BlockInfo))).foldl
          (updateBlockTracking 10) []) = 50 / 9 :=
  ⟨by decide, tps_estimator_spec.2.2.2.2 10 (by decide)⟩

/-! ## C7 / C8: subscription registry -/

theorem alookup_setEntry_self (c : Nat) (subs : List String) (st : Registry) :
    alookup c (setEntry c subs st) = some subs := by
  induction st with
  | nil => simp [setEntry, alookup]
  | cons p rest ih =>
    obtain ⟨a, s⟩ := p
    by_cases hac : a = c
    · simp [setEntry, alookup, hac]
    · simp [setEntry, alookup, hac, ih]

theorem setEntry_setEntry (c : Nat) (subs : List String) (st : Registry) :
    setEntry c subs (setEntry c subs st) = setEntry c subs st := by
  induction st with
  | nil => simp [setEntry]
  | cons p rest ih =>
    obtain ⟨a, s⟩ := p
    by_cases hac : a = c
    · simp [setEntry, hac]
    · simp [setEntry, hac, ih]

theorem mem_addTags (tags : List String) :
    ∀ (subs : List String) (t : String),
      t ∈ addTags subs tags ↔ t ∈ subs ∨ t ∈ tags := by
  induction tags with
  | nil => intro subs t; simp [addTags]
  | cons t' rest ih =>
    intro subs t
    show t ∈ addTags (if t' ∈ subs then subs else subs ++ [t']) rest ↔ _
    rw [ih]
    by_cases h : t' ∈ subs
    · rw [if_pos h]
      constructor
      · rintro (hs | hr)
        · exact Or.inl hs
        · exact Or.inr (List.mem_cons_of_mem t' hr)
      · rintro (hs | hm)
        · exact Or.inl hs
        · rcases List.mem_cons.mp hm with rfl | hr
          · exact Or.inl h
          · exact Or.inr hr
    · rw [if_neg h]
      simp only [List.mem_append, List.mem_singleton, List.mem_cons]
      tauto

theorem addTags_of_subset (tags : List String) :
    ∀ subs : List String, (∀ t ∈ tags, t ∈ subs) → addTags subs tags = subs := by
  induction tags with
  | nil => intro subs _; rfl
  | cons t' rest ih =>
    intro subs hsub
    show addTags (if t' ∈ subs then subs else subs ++ [t']) rest = subs
    rw [if_pos (hsub t' (List.mem_cons_self t' rest))]
    exact ih subs fun t ht => hsub t (List.mem_cons_of_mem t' ht)

/-- C7: a freshly connected client has an empty subscription set; a
client is a broadcast recipient only when its registered subscription set
contains the event's type tag — in particular, with a duplicate-free
registry, a client subscribed only to `"block"` never receives a
`"transaction"` frame; and after a disconnect the client's registry entry
is gone and no broadcast delivers to it any more. -/
theorem subscription_delivery_spec :
    (∀ (st : Registry) (c : Nat), alookup c (connect st c) = some [])
    ∧ (∀ (st : Registry) (etype : String) (c : Nat),
        c ∈ broadcastRecipients st etype →
        ∃ subs, (c, subs) ∈ st ∧ etype ∈ subs)
    ∧ (∀ (st : Registry) (c : Nat), (st.map Prod.fst).Nodup →
        alookup c st = some ["block"] →
        c ∉ broadcastRecipients st "transaction")
    ∧ (∀ (st : Registry) (c : Nat), alookup c (disconnect st c) = none)
    ∧ (∀ (st : Registry) (c : Nat) (etype : String),
        c ∉ broadcastRecipients (disconnect st c) etype) := by
  have hrec : ∀ (st : Registry) (etype : String) (c : Nat),
      c ∈ broadcastRecipients st etype → ∃ subs, (c, subs) ∈ st ∧ etype ∈ subs := by
    intro st etype c hc
    unfold broadcastRecipients at hc
    obtain ⟨p, hp, hpc⟩ := List.mem_map.mp hc
    obtain ⟨hpmem, hpsub⟩ := List.mem_filter.mp hp
    refine ⟨p.2, ?_, ?_⟩
    · rw [← hpc]
      exact hpmem
    · exact of_decide_eq_true hpsub
  refine ⟨?_, hrec, ?_, ?_, ?_⟩
  · intro st c
    exact alookup_setEntry_self c [] st
  · intro st c hnd hsub hc
    obtain ⟨subs, hmem, htag⟩ := hrec st "transaction" c hc
    rw [alookup_of_mem_nodup hnd hmem] at hsub
    obtain rfl : subs = ["block"] := by injection hsub
    simp at htag
  · intro st c
    induction st with
    | nil => rfl
    | cons p rest ih =>
      obtain ⟨a, s⟩ := p
      by_cases hac : a = c
      · simpa [disconnect, hac] using ih
      · simpa [disconnect, alookup, hac] using ih
  · intro st c etype hc
    obtain ⟨subs, hmem, _⟩ := hrec (disconnect st c) etype c hc
    unfold disconnect at hmem
    have := (List.mem_filter.mp hmem).2
    simp at this

/-- C7 witness: delivery filtering at a concrete registry. -/
theorem subscription_delivery_spec_witness :
    (([((1 : Nat), ["block"])] : Registry).map Prod.fst).Nodup
    ∧ alookup 1 ([((1 : Nat), ["block"])] : Registry) = some ["block"]
    ∧ 1 ∉ broadcastRecipients ([((1 : Nat), ["block"])] : Registry) "transaction" :=
  ⟨by decide, by decide,
   subscription_delivery_spec.2.2.1 [((1 : Nat), ["block"])] 1 (by decide) (by decide)⟩

/-- C8: an unparseable client message leaves the registry (hence the
connection's entry) unchanged and sends no acknowledgment; a well-formed
subscribe request unions the requested tags into the client's set
(idempotently — repeating it changes nothing), and the acknowledgment
carries exactly the client's full current subscription set. -/
theorem message_handling_spec :
    (∀ (st : Registry) (c : Nat), handleMessage st c none = (st, none))
    ∧ (∀ (st : Registry) (c : Nat) (m : SubMsg), m.type = "subscribe" →
        ∃ s, (handleMessage st c (some m)).2 = some s
          ∧ alookup c (handleMessage st c (some m)).1 = some s
          ∧ (∀ t, t ∈ s ↔ t ∈ (alookup c st).getD [] ∨ t ∈ m.events)
          ∧ (handleMessage (handleMessage st c (some m)).1 c (some m)).1
              = (handleMessage st c (some m)).1) := by
  constructor
  · intro st c
    rfl
  · intro st c m hm
    simp only [handleMessage]
    rw [if_pos hm]
    refine ⟨addTags ((alookup c st).getD []) m.events, rfl, ?_, ?_, ?_⟩
    · exact alookup_setEntry_self c _ st
    · intro t
      exact mem_addTags m.events ((alookup c st).getD []) t
    · rw [if_pos hm]
      simp only [alookup_setEntry_self, Option.getD_some]
      rw [addTags_of_subset m.events _
        (fun t ht => (mem_addTags m.events _ t).mpr (Or.inr ht))]
      exact setEntry_setEntry c _ st

/-- C8 witness: subscribe handling at a concrete registry and message. -/
theorem message_handling_spec_witness :
    (SubMsg.mk "subscribe" ["block", "transaction"]).type = "subscribe"
    ∧ ∃ s, (handleMessage ([] : Registry) 1
          (some (SubMsg.mk "subscribe" ["block", "transaction"]))).2 = some s
        ∧ alookup 1 (handleMessage ([] : Registry) 1
          (some (SubMsg.mk "subscribe" ["block", "transaction"]))).1 = some s
        ∧ (∀ t, t ∈ s ↔
            t ∈ (alookup 1 ([] : Registry)).getD []
            ∨ t ∈ (SubMsg.mk "subscribe" ["block", "transaction"]).events)
        ∧ (handleMessage (handleMessage ([] : Registry) 1
            (some (SubMsg.mk "subscribe" ["block", "transaction"]))).1 1
            (some (SubMsg.mk "subscribe" ["block", "transaction"]))).1
          = (handleMessage ([] : Registry) 1
            (some (SubMsg.mk "subscribe" ["block", "transaction"]))).1 :=
  ⟨rfl, message_handling_spec.2 [] 1
    (SubMsg.mk "subscribe" ["block", "transaction"]) rfl⟩

/-! ## C4: contract usage records -/

theorem txsTo_cons (addr : String) (tx : Tx) (rest : List Tx) :
    txsTo addr (tx :: rest)
      = if resolvedContract tx = some addr then tx :: txsTo addr rest
        else txsTo addr rest := rfl

theorem sumGas_cons (tx : Tx) (rest : List Tx) :
    sumGas (tx :: rest) = tx.gas + sumGas rest := rfl

theorem alookup_insertContract_self (addr : String) (gas : Nat) (cat : String) :
    ∀ m : List (String × CStats),
      alookup addr (insertContract addr gas cat m)
        = match alookup addr m with
          | some s => some ⟨s.transactionCount + 1, s.gasUsed + gas, s.transactionType⟩
          | none => some ⟨1, gas, cat⟩ := by
  intro m
  induction m with
  | nil => simp [insertContract, alookup]
  | cons p rest ih =>
    obtain ⟨a, s⟩ := p
    by_cases ha : a = addr
    · subst ha
      simp [insertContract, alookup]
    · simp only [insertContract, if_neg ha, alookup, if_neg ha, ih]

theorem alookup_insertContract_other (addr b : String) (gas : Nat) (cat : String)
    (hb : b ≠ addr) :
    ∀ m : List (String × CStats),
      alookup b (insertContract addr gas cat m) = alookup b m := by
  intro m
  have hba : ∀ x : String, x = addr → x = b → False := fun x h1 h2 => hb (h2 ▸ h1)
  induction m with
  | nil =>
    have h1 : ¬ addr = b := fun h => hb h.symm
    simp [insertContract, alookup, h1]
  | cons p rest ih =>
    obtain ⟨a, s⟩ := p
    by_cases ha : a = addr
    · subst ha
      have h1 : ¬ a = b := fun h => hb h.symm
      simp [insertContract, alookup, h1]
    · simp only [insertContract, if_neg ha, alookup, ih]

theorem alookup_foldl_contractStep (addr : String) (txs : List Tx) :
    ∀ m : List (String × CStats),
      alookup addr (txs.foldl contractStep m)
        = match alookup addr m with
          | some s =>
            some ⟨s.transactionCount + (txsTo addr txs).length,
                  s.gasUsed + sumGas (txsTo addr txs), s.transactionType⟩
          | none =>
            match txsTo addr txs with
            | [] => none
            | t :: rest =>
              some ⟨1 + rest.length, t.gas + sumGas rest, txTypeOf t⟩ := by
  induction txs with
  | nil =>
    intro m
    cases h : alookup addr m with
    | some s => simp [txsTo, sumGas, h]
    | none => simp [txsTo, h]
  | cons tx rest ih =>
    intro m
    simp only [List.foldl_cons]
    rw [ih]
    cases hres : resolvedContract tx with
    | none =>
      have hstep : contractStep m tx = m := by
        unfold contractStep
        rw [hres]
      have htxs : txsTo addr (tx :: rest) = txsTo addr rest := by
        rw [txsTo_cons, hres]
        simp
      rw [hstep, htxs]
    | some a =>
      have hstep : contractStep m tx = insertContract a tx.gas (txTypeOf tx) m := by
        unfold contractStep
        rw [hres]
      by_cases haddr : a = addr
      · subst haddr
        have htxs : txsTo a (tx :: rest) = tx :: txsTo a rest := by
          rw [txsTo_cons, if_pos hres]
        rw [hstep, htxs, alookup_insertContract_self]
        cases h : alookup a m <;>
          simp [List.length_cons, sumGas_cons, Nat.add_assoc, Nat.add_comm,
            Nat.add_left_comm]
      · have htxs : txsTo addr (tx :: rest) = txsTo addr rest := by
          rw [txsTo_cons, hres]
          rw [if_neg (by simp; exact haddr)]
        rw [hstep, htxs, alookup_insertContract_other a addr _ _ (fun h => haddr h.symm)]

theorem alookup_buildContractStats (addr : String) (txs : List Tx) :
    alookup addr (buildContractStats txs)
      = match txsTo addr txs with
        | [] => none
        | t :: rest => some ⟨1 + rest.length, t.gas + sumGas rest, txTypeOf t⟩ := by
  unfold buildContractStats
  rw [alookup_foldl_contractStep]
  rfl

theorem keys_insertContract (addr : String) (gas : Nat) (cat : String) :
    ∀ m : List (String × CStats),
      (insertContract addr gas cat m).map Prod.fst
        = if (alookup addr m).isSome then m.map Prod.fst
          else m.map Prod.fst ++ [addr] := by
  intro m
  induction m with
  | nil => simp [insertContract, alookup]
  | cons p rest ih =>
    obtain ⟨a, s⟩ := p
    by_cases ha : a = addr
    · simp [insertContract, alookup, ha]
    · simp only [insertContract, if_neg ha, List.map_cons, alookup,
        if_neg ha, ih]
      by_cases h : (alookup addr rest).isSome <;> simp [h]

theorem nodup_keys_buildContractStats (txs : List Tx) :
    ((buildContractStats txs).map Prod.fst).Nodup := by
  unfold buildContractStats
  suffices h : ∀ m : List (String × CStats), (m.map Prod.fst).Nodup →
      ((txs.foldl contractStep m).map Prod.fst).Nodup by
    exact h [] (by simp)
  induction txs with
  | nil => intro m hm; simpa using hm
  | cons tx rest ih =>
    intro m hm
    simp only [List.foldl_cons]
    apply ih
    unfold contractStep
    cases hres : resolvedContract tx with
    | none => exact hm
    | some a =>
      rw [keys_insertContract]
      cases h : alookup a m with
      | some s => simpa using hm
      | none =>
        have hnotin : a ∉ m.map Prod.fst := alookup_none_not_mem h
        simp only [Option.isSome_none, Bool.false_eq_true, if_false]
        simp [List.nodup_append, hm, hnotin]

/-- C4: every `contractUsage` row of a block has `gasUsed` equal to the
summed gas of the block's transactions that target its contract,
`transactionCount` equal to their number (at least 1 for any row that
exists), `avgGasPerTx` equal to `gasUsed / transactionCount` with
truncating integer division, and the category of the first such
transaction in block order (first-observed-wins). -/
theorem contractUsage_spec (hdr : BlockHeader) (txs : List Tx)
    (r : ContractUsageRecord) (hr : r ∈ contractUsageRecords hdr txs) :
    1 ≤ r.transactionCount
    ∧ r.transactionCount = (txsTo r.contractAddress txs).length
    ∧ r.gasUsed = sumGas (txsTo r.contractAddress txs)
    ∧ r.avgGasPerTx = r.gasUsed / r.transactionCount
    ∧ ∃ t rest, txsTo r.contractAddress txs = t :: rest
        ∧ r.transactionType = txTypeOf t := by
  unfold contractUsageRecords at hr
  obtain ⟨⟨addr, s⟩, hmem, hrec⟩ := List.mem_map.mp hr
  have haddr : r.contractAddress = addr := by
    rw [← hrec]
    rfl
  have hlook : alookup addr (buildContractStats txs) = some s :=
    alookup_of_mem_nodup (nodup_keys_buildContractStats txs) hmem
  rw [alookup_buildContractStats] at hlook
  cases htxs : txsTo addr txs with
  | nil => rw [htxs] at hlook; exact absurd hlook (by simp)
  | cons t rest =>
    rw [htxs] at hlook
    have hs : s = ⟨1 + rest.length, t.gas + sumGas rest, txTypeOf t⟩ := by
      injection hlook with h
      exact h.symm
    subst hs
    have hfields : r.transactionCount = 1 + rest.length
        ∧ r.gasUsed = t.gas + sumGas rest
        ∧ r.avgGasPerTx = (t.gas + sumGas rest) / (1 + rest.length)
        ∧ r.transactionType = txTypeOf t := by
      rw [← hrec]
      exact ⟨rfl, rfl, rfl, rfl⟩
    obtain ⟨h1, h2, h3, h4⟩ := hfields
    refine ⟨by omega, ?_, ?_, ?_, t, rest, by rw [haddr, htxs], h4⟩
    · rw [haddr, htxs, h1, List.length_cons]
      omega
    · rw [haddr, htxs, h2]
      rfl
    · rw [h3, h2, h1]

/-- C4 witness: the contract-usage invariants at a concrete block with
two transactions to the same contract. -/
theorem contractUsage_spec_witness :
    (⟨"100-0xc", 100, 1000, "0xc", 2, 31000, 15500, "swap"⟩ : ContractUsageRecord)
      ∈ contractUsageRecords ⟨100, "0xbh", 1000, 60000, 100000⟩
        [⟨"0xt1", "0xa", some "0xc", 0, 21000, 1, "0x7ff36ab5ffff".data, 0⟩,
         ⟨"0xt2", "0xd", some "0xc", 0, 10000, 1, "0xdeadbeefffff".data, 1⟩]
    ∧ 1 ≤ (⟨"100-0xc", 100, 1000, "0xc", 2, 31000, 15500, "swap"⟩
        : ContractUsageRecord).transactionCount :=
  ⟨by decide,
   (contractUsage_spec ⟨100, "0xbh", 1000, 60000, 100000⟩
      [⟨"0xt1", "0xa", some "0xc", 0, 21000, 1, "0x7ff36ab5ffff".data, 0⟩,
       ⟨"0xt2", "0xd", some "0xc", 0, 10000, 1, "0xdeadbeefffff".data, 1⟩]
      ⟨"100-0xc", 100, 1000, "0xc", 2, 31000, 15500, "swap"⟩ (by decide)).1⟩

/-! ## C5 / C9: MON transfers and wallet accumulators -/

/-- The wallet accumulator read off the map, a zeroed accumulator when
the wallet has no entry yet (creation and in-place update then coincide:
both add the per-event delta). -/
def walletOf (m : List (String × MonWalletStats)) (w : String) : MonWalletStats :=
  (alookup w m).getD MonWalletStats.zero

theorem alookup_updateSender_self (a : String) (v : Nat) :
    ∀ m : List (String × MonWalletStats),
      alookup a (updateSender a v m) = some ((walletOf m a).add (senderDelta v)) := by
  intro m
  induction m with
  | nil =>
    simp [updateSender, alookup, walletOf, MonWalletStats.zero,
      MonWalletStats.add, senderDelta]
  | cons p rest ih =>
    obtain ⟨b, s⟩ := p
    by_cases hb : b = a
    · subst hb
      simp [updateSender, alookup, walletOf, MonWalletStats.add, senderDelta]
    · simp only [updateSender, if_neg hb, alookup, if_neg hb, ih, walletOf]

theorem alookup_updateSender_other (a b : String) (v : Nat) (hb : b ≠ a) :
    ∀ m : List (String × MonWalletStats),
      alookup b (updateSender a v m) = alookup b m := by
  intro m
  induction m with
  | nil =>
    have h1 : ¬ a = b := fun h => hb h.symm
    simp [updateSender, alookup, h1]
  | cons p rest ih =>
    obtain ⟨c, s⟩ := p
    by_cases hc : c = a
    · subst hc
      have h1 : ¬ c = b := fun h => hb h.symm
      simp [updateSender, alookup, h1]
    · simp only [updateSender, if_neg hc, alookup, ih]

theorem alookup_updateReceiver_self (a : String) (v : Nat) :
    ∀ m : List (String × MonWalletStats),
      alookup a (updateReceiver a v m) = some ((walletOf m a).add (receiverDelta v)) := by
  intro m
  induction m with
  | nil =>
    simp [updateReceiver, alookup, walletOf, MonWalletStats.zero,
      MonWalletStats.add, receiverDelta]
  | cons p rest ih =>
    obtain ⟨b, s⟩ := p
    by_cases hb : b = a
    · subst hb
      simp [updateReceiver, alookup, walletOf, MonWalletStats.add, receiverDelta]
    · simp only [updateReceiver, if_neg hb, alookup, if_neg hb, ih, walletOf]

theorem alookup_updateReceiver_other (a b : String) (v : Nat) (hb : b ≠ a) :
    ∀ m : List (String × MonWalletStats),
      alookup b (updateReceiver a v m) = alookup b m := by
  intro m
  induction m with
  | nil =>
    have h1 : ¬ a = b := fun h => hb h.symm
    simp [updateReceiver, alookup, h1]
  | cons p rest ih =>
    obtain ⟨c, s⟩ := p
    by_cases hc : c = a
    · subst hc
      have h1 : ¬ c = b := fun h => hb h.symm
      simp [updateReceiver, alookup, h1]
    · simp only [updateReceiver, if_neg hc, alookup, ih]

theorem monFold_transfers (bn : Nat) (l : List (Nat × Tx)) :
    ∀ st : MonState,
      (l.foldl (fun st p => monStep bn p.1 st p.2) st).transfers
        = st.transfers
          ++ (l.filter (fun p => 0 < p.2.value)).map
              (fun p => mkMonTransferRecord bn p.1 p.2) := by
  induction l with
  | nil => intro st; simp
  | cons p rest ih =>
    intro st
    obtain ⟨i, tx⟩ := p
    simp only [List.foldl_cons]
    by_cases hv : 0 < tx.value
    · have hstep : (monStep bn i st tx).transfers
          = st.transfers ++ [mkMonTransferRecord bn i tx] := by
        unfold monStep
        rw [if_pos hv]
      rw [ih, hstep]
      rw [List.filter_cons_of_pos (by simpa using hv), List.map_cons,
        List.append_assoc]
      rfl
    · have hstep : monStep bn i st tx = st := by
        unfold monStep
        rw [if_neg hv]
      rw [ih, hstep, List.filter_cons_of_neg (by simpa using hv)]

/-- C5: for the loop iteration handling transaction `i` of a block, a
positive native value produces exactly one new `monTransfers` record (for
that transaction, appended to the list), updates the sender's MON
accumulator by exactly one send delta, and updates the receiver's
accumulator by exactly one receive delta exactly when a receiver exists
(a self-transfer applies both deltas to the one wallet); every other
wallet's entry is untouched.  A zero value changes nothing.  Over a whole
block, the `monTransfers` list holds exactly one record per
positive-value transaction, in block order. -/
theorem mon_transfer_spec (bn i : Nat) (st : MonState) (tx : Tx) :
    (0 < tx.value →
      (monStep bn i st tx).transfers
        = st.transfers ++ [mkMonTransferRecord bn i tx]
      ∧ (∀ rcv, tx.toAddress = some rcv → rcv ≠ tx.fromAddress →
          alookup tx.fromAddress (monStep bn i st tx).walletStats
            = some ((walletOf st.walletStats tx.fromAddress).add (senderDelta tx.value))
          ∧ alookup rcv (monStep bn i st tx).walletStats
            = some ((walletOf st.walletStats rcv).add (receiverDelta tx.value))
          ∧ ∀ w, w ≠ tx.fromAddress → w ≠ rcv →
              alookup w (monStep bn i st tx).walletStats
                = alookup w st.walletStats)
      ∧ (tx.toAddress = some tx.fromAddress →
          alookup tx.fromAddress (monStep bn i st tx).walletStats
            = some (((walletOf st.walletStats tx.fromAddress).add
                (senderDelta tx.value)).add (receiverDelta tx.value))
          ∧ ∀ w, w ≠ tx.fromAddress →
              alookup w (monStep bn i st tx).walletStats
                = alookup w st.walletStats)
      ∧ (tx.toAddress = none →
          alookup tx.fromAddress (monStep bn i st tx).walletStats
            = some ((walletOf st.walletStats tx.fromAddress).add (senderDelta tx.value))
          ∧ ∀ w, w ≠ tx.fromAddress →
              alookup w (monStep bn i st tx).walletStats
                = alookup w st.walletStats))
    ∧ (tx.value = 0 → monStep bn i st tx = st)
    ∧ (∀ txs : List Tx,
        (monFold bn txs).transfers
          = (txs.enum.filter (fun p => 0 < p.2.value)).map
              (fun p => mkMonTransferRecord bn p.1 p.2)) := by
  refine ⟨?_, ?_, ?_⟩
  · intro hv
    have hstates : (monStep bn i st tx).walletStats
        = match tx.toAddress with
          | some rcv => updateReceiver rcv tx.value
              (updateSender tx.fromAddress tx.value st.walletStats)
          | none => updateSender tx.fromAddress tx.value st.walletStats := by
      unfold monStep
      rw [if_pos hv]
    refine ⟨?_, ?_, ?_, ?_⟩
    · unfold monStep
      rw [if_pos hv]
    · intro rcv hrcv hne
      rw [hstates, hrcv]
      refine ⟨?_, ?_, ?_⟩
      · rw [alookup_updateReceiver_other rcv tx.fromAddress _ (fun h => hne h.symm),
          alookup_updateSender_self]
      · rw [alookup_updateReceiver_self]
        unfold walletOf
        rw [alookup_updateSender_other tx.fromAddress rcv _ hne]
      · intro w hwf hwr
        rw [alookup_updateReceiver_other rcv w _ hwr,
          alookup_updateSender_other tx.fromAddress w _ hwf]
    · intro hrcv
      rw [hstates, hrcv]
      refine ⟨?_, ?_⟩
      · rw [alookup_updateReceiver_self]
        unfold walletOf
        rw [alookup_updateSender_self]
        rfl
      · intro w hwf
        rw [alookup_updateReceiver_other tx.fromAddress w _ hwf,
          alookup_updateSender_other tx.fromAddress w _ hwf]
    · intro hrcv
      rw [hstates, hrcv]
      refine ⟨alookup_updateSender_self tx.fromAddress tx.value st.walletStats, ?_⟩
      intro w hwf
      rw [alookup_updateSender_other tx.fromAddress w _ hwf]
  · intro hv
    unfold monStep
    rw [if_neg (by omega)]
  · intro txs
    unfold monFold
    rw [monFold_transfers]
    rfl

/-- C5 witness: one positive-value transaction appends exactly its one
transfer record. -/
theorem mon_transfer_spec_witness :
    (0 : Nat) < 5
    ∧ (monStep 100 0 ⟨[], []⟩
        ⟨"0xt", "0xa", some "0xb", 5, 21000, 1, "0x".data, 0⟩).transfers
      = [mkMonTransferRecord 100 0
          ⟨"0xt", "0xa", some "0xb", 5, 21000, 1, "0x".data, 0⟩] :=
  ⟨by decide,
   by simpa using
     ((mon_transfer_spec 100 0 ⟨[], []⟩
        ⟨"0xt", "0xa", some "0xb", 5, 21000, 1, "0x".data, 0⟩).1 (by decide)).1⟩

theorem updateSender_entries_inv (a : String) (v : Nat) :
    ∀ m : List (String × MonWalletStats),
      (∀ p ∈ m, p.2.transferCount = p.2.sentCount + p.2.receivedCount) →
      ∀ p ∈ updateSender a v m,
        p.2.transferCount = p.2.sentCount + p.2.receivedCount := by
  intro m
  induction m with
  | nil =>
    intro _ p hp
    simp only [updateSender, List.mem_singleton] at hp
    subst hp
    rfl
  | cons q rest ih =>
    intro hinv p hp
    obtain ⟨b, s⟩ := q
    by_cases hb : b = a
    · subst hb
      have hred : updateSender b v ((b, s) :: rest)
          = (b, ⟨s.totalSent + v, s.totalReceived, s.transferCount + 1,
              s.sentCount + 1, s.receivedCount⟩) :: rest := by
        unfold updateSender
        rw [if_pos rfl]
      rw [hred] at hp
      rcases List.mem_cons.mp hp with rfl | hp
      · have hs := hinv (b, s) (List.mem_cons_self _ _)
        dsimp only at hs ⊢
        omega
      · exact hinv p (List.mem_cons_of_mem _ hp)
    · have hred : updateSender a v ((b, s) :: rest)
          = (b, s) :: updateSender a v rest := by
        conv_lhs => rw [updateSender]
        rw [if_neg hb]
      rw [hred] at hp
      rcases List.mem_cons.mp hp with rfl | hp
      · exact hinv _ (List.mem_cons_self _ _)
      · exact ih (fun q hq => hinv q (List.mem_cons_of_mem _ hq)) p hp

theorem updateReceiver_entries_inv (a : String) (v : Nat) :
    ∀ m : List (String × MonWalletStats),
      (∀ p ∈ m, p.2.transferCount = p.2.sentCount + p.2.receivedCount) →
      ∀ p ∈ updateReceiver a v m,
        p.2.transferCount = p.2.sentCount + p.2.receivedCount := by
  intro m
  induction m with
  | nil =>
    intro _ p hp
    simp only [updateReceiver, List.mem_singleton] at hp
    subst hp
    rfl
  | cons q rest ih =>
    intro hinv p hp
    obtain ⟨b, s⟩ := q
    by_cases hb : b = a
    · subst hb
      have hred : updateReceiver b v ((b, s) :: rest)
          = (b, ⟨s.totalSent, s.totalReceived + v, s.transferCount + 1,
              s.sentCount, s.receivedCount + 1⟩) :: rest := by
        unfold updateReceiver
        rw [if_pos rfl]
      rw [hred] at hp
      rcases List.mem_cons.mp hp with rfl | hp
      · have hs := hinv (b, s) (List.mem_cons_self _ _)
        dsimp only at hs ⊢
        omega
      · exact hinv p (List.mem_cons_of_mem _ hp)
    · have hred : updateReceiver a v ((b, s) :: rest)
          = (b, s) :: updateReceiver a v rest := by
        conv_lhs => rw [updateReceiver]
        rw [if_neg hb]
      rw [hred] at hp
      rcases List.mem_cons.mp hp with rfl | hp
      · exact hinv _ (List.mem_cons_self _ _)
      · exact ih (fun q hq => hinv q (List.mem_cons_of_mem _ hq)) p hp

theorem monStep_entries_inv (bn i : Nat) (st : MonState) (tx : Tx)
    (hinv : ∀ p ∈ st.walletStats,
      p.2.transferCount = p.2.sentCount + p.2.receivedCount) :
    ∀ p ∈ (monStep bn i st tx).walletStats,
      p.2.transferCount = p.2.sentCount + p.2.receivedCount := by
  unfold monStep
  by_cases hv : 0 < tx.value
  · rw [if_pos hv]
    cases tx.toAddress with
    | none =>
      exact updateSender_entries_inv _ _ _ hinv
    | some rcv =>
      exact updateReceiver_entries_inv _ _ _
        (updateSender_entries_inv _ _ _ hinv)
  · rw [if_neg hv]
    exact hinv

theorem monFold_entries_inv (bn : Nat) (l : List (Nat × Tx)) :
    ∀ st : MonState,
      (∀ p ∈ st.walletStats,
        p.2.transferCount = p.2.sentCount + p.2.receivedCount) →
      ∀ p ∈ (l.foldl (fun st p => monStep bn p.1 st p.2) st).walletStats,
        p.2.transferCount = p.2.sentCount + p.2.receivedCount := by
  induction l with
  | nil => intro st hinv; exact hinv
  | cons q rest ih =>
    intro st hinv
    simp only [List.foldl_cons]
    exact ih _ (monStep_entries_inv bn q.1 st q.2 hinv)

/-- C9: every `monWalletActivity` accumulator a block produces satisfies
`transferCount = sentCount + receivedCount`, because each update adds a
delta that increments `transferCount` together with exactly one of
`sentCount` (send) or `receivedCount` (receive). -/
theorem wallet_activity_invariant :
    (∀ (bn : Nat) (txs : List Tx) (w : String) (s : MonWalletStats),
        alookup w (monFold bn txs).walletStats = some s →
        s.transferCount = s.sentCount + s.receivedCount)
    ∧ (∀ (m : List (String × MonWalletStats)) (a : String) (v : Nat),
        alookup a (updateSender a v m)
          = some ((walletOf m a).add (senderDelta v))
        ∧ (senderDelta v).transferCount = 1
        ∧ (senderDelta v).sentCount = 1
        ∧ (senderDelta v).receivedCount = 0)
    ∧ (∀ (m : List (String × MonWalletStats)) (a : String) (v : Nat),
        alookup a (updateReceiver a v m)
          = some ((walletOf m a).add (receiverDelta v))
        ∧ (receiverDelta v).transferCount = 1
        ∧ (receiverDelta v).receivedCount = 1
        ∧ (receiverDelta v).sentCount = 0) := by
  refine ⟨?_, ?_, ?_⟩
  · intro bn txs w s hs
    have hmem := mem_of_alookup hs
    have hinv := monFold_entries_inv bn txs.enum ⟨[], []⟩ (by simp)
    exact hinv (w, s) hmem
  · intro m a v
    exact ⟨alookup_updateSender_self a v m, rfl, rfl, rfl⟩
  · intro m a v
    exact ⟨alookup_updateReceiver_self a v m, rfl, rfl, rfl⟩

/-- C9 witness: the invariant read off a concrete block's wallet map. -/
theorem wallet_activity_invariant_witness :
    alookup "0xa" (monFold 100
        [⟨"0xt", "0xa", some "0xb", 5, 21000, 1, "0x".data, 0⟩]).walletStats
      = some ⟨5, 0, 1, 1, 0⟩
    ∧ (⟨5, 0, 1, 1, 0⟩ : MonWalletStats).transferCount
      = (⟨5, 0, 1, 1, 0⟩ : MonWalletStats).sentCount
        + (⟨5, 0, 1, 1, 0⟩ : MonWalletStats).receivedCount :=
  ⟨by decide,
   wallet_activity_invariant.1 100
     [⟨"0xt", "0xa", some "0xb", 5, 21000, 1, "0x".data, 0⟩]
     "0xa" ⟨5, 0, 1, 1, 0⟩ (by decide)⟩

end PonderIndexer
